import Mathlib

/-!
Formal model of the Moria pay-per-request gateway core (a metered reverse
proxy with Lightning-style settlement).  Each definition is a shallow
embedding of one function of the TypeScript source:

* `calculateFees`        — src/services/billing.ts `calculateFees`
* `globTokens`/`matchTokens`/`matchPath`
                         — src/services/l402.ts `matchPath` (glob → regex)
* `findMatchingRule`     — src/routes/proxy.ts `findMatchingRule`
* `verifyL402Token`      — src/services/l402.ts `verifyL402Token`
* `forwardRequest`       — src/routes/proxy.ts `forwardRequest`
* `authorize`            — the decision structure of the proxy handler
                           src/routes/proxy.ts `app.all("/:gatewayId/*")`
* `topupCheck`/`runChecks` — src/routes/sessions.ts top-up status handler
* `stepReq`/`runSched`   — an interleaving model of concurrent proxy
                           requests against one session

JavaScript `number` values that the code only ever uses as integer satoshi
amounts are modelled as `ℤ`; the platform fee percent (a parsed float that
may be fractional) is modelled as `ℚ`.
-/

namespace Moria

/-! ### Fee calculator (src/services/billing.ts) -/

/-- Result record of `calculateFees`: mirrors the TypeScript
`FeeBreakdown` interface `{totalCost, devEarnings, platformFee}`. -/
structure FeeBreakdown where
  totalCost : ℤ
  devEarnings : ℤ
  platformFee : ℤ
  deriving DecidableEq

/-- Embedding of `calculateFees(costSats, platformFeePercent)`:
`platformFee = Math.ceil((costSats * platformFeePercent) / 100)`,
`devEarnings = costSats - platformFee`, `totalCost = costSats`. -/
def calculateFees (costSats : ℤ) (platformFeePercent : ℚ) : FeeBreakdown :=
  let platformFee : ℤ := ⌈((costSats : ℚ) * platformFeePercent) / 100⌉
  { totalCost := costSats
    devEarnings := costSats - platformFee
    platformFee := platformFee }

/-! ### Glob path matcher (src/services/l402.ts `matchPath`)

The source converts the glob pattern to a regular expression by replacing
every `**` (left to right, non-overlapping, via a GLOBSTAR placeholder)
with `.*`, every remaining `*` with a character class matching any run of
non-slash characters, anchoring with a leading caret and a trailing dollar,
and testing the whole path.  We embed that regex directly as a token list:
`globstar` stands for `.*` (any characters), `star` for the non-slash
class (any run of non-`/` characters), and `lit c` for a literal
character.  Pattern characters other than `*` reach the regex unescaped in
the source; the embedding treats them as literals, which is exact for
patterns free of regex metacharacters (all patterns in the repository and
spec are of this form), and we exclude patterns containing the literal
GLOBSTAR placeholder text. -/

/-- One token of the compiled glob pattern. -/
inductive GlobTok where
  | globstar
  | star
  | lit (c : Char)
  deriving DecidableEq

/-- Tokenize a glob pattern exactly as the source's chain of `replace`
calls does: `**` first (left to right, non-overlapping), then `*`,
everything else literal. -/
def globTokens : List Char → List GlobTok
  | [] => []
  | '*' :: '*' :: rest => GlobTok.globstar :: globTokens rest
  | '*' :: rest => GlobTok.star :: globTokens rest
  | c :: rest => GlobTok.lit c :: globTokens rest

/-- The suffixes of `s` reachable by deleting a (possibly empty) run of
non-`/` characters from the front: exactly the continuation points the
character class compiled from a single `*` allows. -/
def nonSlashSuffixes : List Char → List (List Char)
  | [] => [[]]
  | d :: ds => (d :: ds) :: (if d = '/' then [] else nonSlashSuffixes ds)

/-- All suffixes of `s`: the continuation points `.*` (compiled from
`**`) allows. -/
def allSuffixes : List Char → List (List Char)
  | [] => [[]]
  | d :: ds => (d :: ds) :: allSuffixes ds

/-- Anchored regex matching of the compiled pattern against the whole
path, as `new RegExp("^" + regexStr + "$").test(path)` does: `star`
consumes any run of non-`/` characters, `globstar` any run of characters,
a literal consumes exactly itself, and the token list and the path must be
exhausted together. -/
def matchTokens : List GlobTok → List Char → Bool
  | [], s => s.isEmpty
  | GlobTok.lit c :: ts, s =>
      match s with
      | [] => false
      | d :: ds => c = d && matchTokens ts ds
  | GlobTok.star :: ts, s => (nonSlashSuffixes s).any fun b => matchTokens ts b
  | GlobTok.globstar :: ts, s => (allSuffixes s).any fun b => matchTokens ts b

/-- Embedding of `matchPath(pattern, path)`. -/
def matchPath (pattern path : String) : Bool :=
  matchTokens (globTokens pattern.toList) path.toList

/-! ### Route pricer (src/routes/proxy.ts `findMatchingRule`) -/

/-- A gateway route rule `{pattern, price, description}` (the description
plays no role in pricing and is omitted). -/
structure RouteRule where
  pattern : String
  price : ℤ
  deriving DecidableEq

/-- The `for (const rule of rules)` loop body of `findMatchingRule`:
return the first rule whose pattern matches the path. -/
def findRuleLoop : List RouteRule → String → Option RouteRule
  | [], _ => none
  | r :: rs, path =>
      if matchPath r.pattern path then some r else findRuleLoop rs path

/-- Embedding of `findMatchingRule(rules, path, defaultPrice)`: `none`
models a `null` rules field, and an empty list hits the same early return
(`!rules || rules.length === 0`).  Returns the price together with the
matched rule, as the source's `{ price, rule? }` does. -/
def findMatchingRule (rules : Option (List RouteRule)) (path : String)
    (defaultPrice : ℤ) : ℤ × Option RouteRule :=
  match rules with
  | none => (defaultPrice, none)
  | some rs =>
      if rs.isEmpty then (defaultPrice, none)
      else
        match findRuleLoop rs path with
        | some r => (r.price, some r)
        | none => (defaultPrice, none)

/-! ### L402 voucher verification (src/services/l402.ts)

The macaroon wire form is `btoa(JSON.stringify(fullMacaroon))`.  Decoding
(`atob` + `JSON.parse` inside the `try`) is modelled by an
`Option MacaroonData` argument: `none` is a token whose decoding throws
(the `catch` branch).  The two cryptographic primitives are abstracted as
function parameters: `hmac secret content` stands for
`signMacaroon(content, secret)` (HMAC-SHA256 over the JSON of all fields
except the signature) and `sha256hex preimage` for
`bytesToHex(sha256(hexToBytes(preimage)))`.  `now` stands for
`Date.now()` in milliseconds. -/

/-- The signed fields of a macaroon: everything except the signature. -/
structure MacaroonContent where
  paymentHash : String
  gatewayId : String
  path : String
  price : ℤ
  expires : ℤ
  deriving DecidableEq

/-- A decoded macaroon `{paymentHash, gatewayId, path, price, expires,
signature}`. -/
structure MacaroonData where
  paymentHash : String
  gatewayId : String
  path : String
  price : ℤ
  expires : ℤ
  signature : String
  deriving DecidableEq

/-- The `rest` of the source's `const { signature, ...rest } = data`: the
macaroon minus its signature. -/
def MacaroonData.content (m : MacaroonData) : MacaroonContent :=
  { paymentHash := m.paymentHash
    gatewayId := m.gatewayId
    path := m.path
    price := m.price
    expires := m.expires }

/-- Embedding of `verifyMacaroonSignature(data, secret)`: recompute the
HMAC over all fields except the signature and compare for exact
equality. -/
def verifyMacaroonSignature (hmac : String → MacaroonContent → String)
    (m : MacaroonData) (secret : String) : Bool :=
  m.signature = hmac secret m.content

/-- The source's `{ valid: boolean; error?: string }` result. -/
inductive VerifyResult where
  | valid
  | invalid (error : String)
  deriving DecidableEq

/-- Embedding of `verifyL402Token(token, gatewayId, _path, secret)`.  The
checks run in source order: decode, signature, expiry, gateway id,
preimage hash.  The `_path` request-path argument is kept (as `pathArg`)
exactly as in the source, where it is declared but never read. -/
def verifyL402Token (hmac : String → MacaroonContent → String)
    (sha256hex : String → String) (now : ℤ)
    (decoded : Option MacaroonData) (preimage : String)
    (gatewayId : String) (pathArg : String) (secret : String) : VerifyResult :=
  match decoded with
  | none => VerifyResult.invalid "Invalid macaroon format"
  | some macaroon =>
      if ¬ verifyMacaroonSignature hmac macaroon secret then
        VerifyResult.invalid "Invalid macaroon signature"
      else if now > macaroon.expires then
        VerifyResult.invalid "Macaroon expired"
      else if macaroon.gatewayId ≠ gatewayId then
        VerifyResult.invalid "Macaroon not valid for this gateway"
      else if sha256hex preimage ≠ macaroon.paymentHash then
        VerifyResult.invalid "Invalid preimage"
      else VerifyResult.valid

/-! ### Settlement ledger (src/db/schema.ts, as used by the proxy)

Rows keep the columns the proxy engine reads or writes; timestamp
bookkeeping columns (`createdAt`, `updatedAt`) are omitted.  A drizzle
`select().where(eq(id))` is a `find?` on the row list and an
`update().set().where(eq(id))` maps the update over every row with the
matching id (ids are primary keys, so at most one row matches in a
well-formed database). -/

/-- A `sessions` row: anonymous caller credit account. -/
structure SessionRow where
  id : String
  sessionKey : String
  balanceSats : ℤ
  deriving DecidableEq

/-- A `developers` row (only the columns settlement touches). -/
structure DeveloperRow where
  id : String
  balanceSats : ℤ
  deriving DecidableEq

/-- A `gateways` row (only the columns the proxy reads). -/
structure GatewayRow where
  id : String
  developerId : String
  targetUrl : String
  pricePerRequestSats : ℤ
  isActive : Bool
  rules : Option (List RouteRule)
  deriving DecidableEq

/-- A `requests` log row as inserted by settlement. -/
structure RequestRow where
  gatewayId : String
  sessionId : String
  costSats : ℤ
  devEarningsSats : ℤ
  platformFeeSats : ℤ
  method : String
  path : String
  statusCode : ℤ
  deriving DecidableEq

/-- The ledger state the proxy engine mutates: sessions, developer
balances, and the append-only request log. -/
structure Ledger where
  sessions : List SessionRow
  developers : List DeveloperRow
  requests : List RequestRow
  deriving DecidableEq

/-- `db.select().from(sessions).where(eq(sessions.sessionKey, key))`. -/
def findSessionByKey (l : Ledger) (key : String) : Option SessionRow :=
  l.sessions.find? fun s => s.sessionKey = key

/-- `db.select().from(developers).where(eq(developers.id, did))`. -/
def findDeveloper (l : Ledger) (did : String) : Option DeveloperRow :=
  l.developers.find? fun d => d.id = did

/-- Balance of the session row with the given id, when one exists. -/
def sessionBalance (l : Ledger) (sid : String) : Option ℤ :=
  (l.sessions.find? fun s => s.id = sid).map fun s => s.balanceSats

/-- Balance of the developer row with the given id, when one exists. -/
def developerBalance (l : Ledger) (did : String) : Option ℤ :=
  (l.developers.find? fun d => d.id = did).map fun d => d.balanceSats

/-- `db.update(sessions).set({balanceSats: v}).where(eq(sessions.id, sid))`. -/
def updateSessionBalance (l : Ledger) (sid : String) (v : ℤ) : Ledger :=
  { l with
    sessions := l.sessions.map fun s =>
      if s.id = sid then { s with balanceSats := v } else s }

/-- `db.update(developers).set({balanceSats: v}).where(eq(developers.id, did))`. -/
def updateDeveloperBalance (l : Ledger) (did : String) (v : ℤ) : Ledger :=
  { l with
    developers := l.developers.map fun d =>
      if d.id = did then { d with balanceSats := v } else d }

/-- `db.insert(requests).values(row)`. -/
def appendRequest (l : Ledger) (row : RequestRow) : Ledger :=
  { l with requests := l.requests ++ [row] }

/-! ### Forward + settle (src/routes/proxy.ts `forwardRequest`)

The upstream call is abstracted as an `Except`-valued argument: `.error e`
is a `fetch` that throws (network/transport failure or timeout, caught by
the source's `try/catch`), `.ok r` a completed upstream round trip with
status `r.status` — the target-URL assembly, query replay and hop-by-hop
header filtering feed only that `fetch` and carry no ledger effect, so
they are not modelled.  The `session` argument is the row object the
handler passed in (the pre-forward snapshot the debit arithmetic uses),
exactly as in the source. -/

/-- A completed upstream response (status code and body passed back
verbatim). -/
structure UpstreamResponse where
  status : ℤ
  body : String
  deriving DecidableEq

/-- The proxy's reply: either a structured error JSON with an HTTP status
and machine code, or the upstream response decorated with the
`X-Request-Cost` header and, when a session was attached, the
`X-Balance-Remaining` header. -/
inductive ProxyResponse where
  | errorJson (status : ℤ) (code : String)
  | upstream (status : ℤ) (body : String) (xRequestCost : ℤ)
      (xBalanceRemaining : Option ℤ)
  deriving DecidableEq

/-- Embedding of `forwardRequest(c, gateway, path, session, costSats)`,
returning the response together with the ledger after the call.  On fetch
failure it returns the 502 `PROXY_ERROR` JSON before any ledger access;
on success it settles only when a session is attached and `costSats > 0`:
set the session balance to the snapshot balance minus the cost, credit
the gateway's developer (if that row exists) with the fee split's
developer earnings, and append the request-log row. -/
def forwardRequest (fetchResult : Except String UpstreamResponse)
    (gateway : GatewayRow) (path : String) (session : Option SessionRow)
    (costSats : ℤ) (method : String) (feePercent : ℚ) (l : Ledger) :
    ProxyResponse × Ledger :=
  match fetchResult with
  | Except.error _ => (ProxyResponse.errorJson 502 "PROXY_ERROR", l)
  | Except.ok r =>
      let l2 :=
        match session with
        | none => l
        | some s =>
            if costSats > 0 then
              let fees := calculateFees costSats feePercent
              let lA := updateSessionBalance l s.id (s.balanceSats - costSats)
              let lB :=
                match findDeveloper lA gateway.developerId with
                | some dev =>
                    updateDeveloperBalance lA dev.id (dev.balanceSats + fees.devEarnings)
                | none => lA
              appendRequest lB
                { gatewayId := gateway.id
                  sessionId := s.id
                  costSats := fees.totalCost
                  devEarningsSats := fees.devEarnings
                  platformFeeSats := fees.platformFee
                  method := method
                  path := path
                  statusCode := r.status }
            else l
      (ProxyResponse.upstream r.status r.body costSats
        (session.map fun s => s.balanceSats - costSats), l2)

/-! ### The proxy handler's authorization decision
(src/routes/proxy.ts `app.all("/:gatewayId/*")`, after gateway lookup and
pricing)

`l402Check` is `some true` when an `Authorization: L402 ...` header is
present, parses, and `verifyL402Token` accepted it; `some false` when the
header is present but parsing or verification failed (the source then
falls through to the session path); `none` when no L402 header is
present.  The challenge-creation side effects of the two
`PAYMENT_REQUIRED` branches (invoice, 402 page/JSON) happen after this
decision and are not modelled. -/

/-- Outcome of the handler's authorization phase. -/
inductive AuthOutcome where
  | forwardNoSession
  | paymentRequiredNoSession
  | invalidSession
  | paymentRequiredSession (s : SessionRow)
  | forwardWithSession (s : SessionRow)
  deriving DecidableEq

/-- The handler's decision sequence: a valid L402 token forwards with no
session (already paid); a resolved price of exactly 0 forwards with no
session and no credential; otherwise a missing session key yields
`PAYMENT_REQUIRED` with no session, an unknown key is a 401
`INVALID_SESSION_KEY`, an insufficient balance yields `PAYMENT_REQUIRED`
carrying the session, and otherwise the request forwards with the session
attached. -/
def authorize (l402Check : Option Bool) (sessionKey : Option String)
    (costSats : ℤ) (l : Ledger) : AuthOutcome :=
  if l402Check = some true then AuthOutcome.forwardNoSession
  else if costSats = 0 then AuthOutcome.forwardNoSession
  else
    match sessionKey with
    | none => AuthOutcome.paymentRequiredNoSession
    | some key =>
        match findSessionByKey l key with
        | none => AuthOutcome.invalidSession
        | some s =>
            if s.balanceSats < costSats then AuthOutcome.paymentRequiredSession s
            else AuthOutcome.forwardWithSession s

/-! ### Interleaving model of concurrent proxy requests on one session
(src/routes/proxy.ts, handler lines around the session lookup and
`forwardRequest`'s settlement block)

Each in-flight request against the same session runs two ledger phases
with I/O suspension points between them:

* the handler's session `select`, which snapshots `session[0].balanceSats`
  and compares it against the price (`session[0].balanceSats < costSats`);
* on success of the upstream fetch, `forwardRequest`'s settlement, whose
  session `update` writes `session.balanceSats - costSats` computed from
  that same snapshot, credits the developer, and inserts a log row.

A schedule is the order in which the in-flight requests execute their next
phase.  `balance`/`devBalance` are the single contended session row and
the gateway developer's row; `logCount` counts inserted request rows. -/

/-- Where one in-flight request stands: not yet looked up, past the
balance check with its snapshot, or finished (`done true` = settled,
`done false` = `PAYMENT_REQUIRED`/`INSUFFICIENT_BALANCE`). -/
inductive ReqPhase where
  | start
  | authorized (snapshot : ℤ)
  | done (settled : Bool)
  deriving DecidableEq

/-- Shared state plus the per-request phases. -/
structure ConcState where
  balance : ℤ
  devBalance : ℤ
  logCount : ℕ
  reqs : List ReqPhase
  deriving DecidableEq

/-- Advance request `i` by one phase: `start` reads the current balance
and either fails the check or records the snapshot; `authorized snap`
performs the settlement writes using the snapshot. -/
def stepReq (price earn : ℤ) (st : ConcState) (i : ℕ) : ConcState :=
  match st.reqs.get? i with
  | none => st
  | some ReqPhase.start =>
      if st.balance < price then
        { st with reqs := st.reqs.set i (ReqPhase.done false) }
      else
        { st with reqs := st.reqs.set i (ReqPhase.authorized st.balance) }
  | some (ReqPhase.authorized snap) =>
      { st with
        balance := snap - price
        devBalance := st.devBalance + earn
        logCount := st.logCount + 1
        reqs := st.reqs.set i (ReqPhase.done true) }
  | some (ReqPhase.done _) => st

/-- Run a schedule (a list of request indices) from a state. -/
def runSched (price earn : ℤ) : ConcState → List ℕ → ConcState
  | st, [] => st
  | st, i :: is => runSched price earn (stepReq price earn st i) is

/-- Number of requests that settled. -/
def settledCount (st : ConcState) : ℕ :=
  (st.reqs.filter fun p => p = ReqPhase.done true).length

/-! ### Top-up status polling (src/routes/sessions.ts, `GET /topup/:id`)

One status check reads the top-up row and the authenticated session row.
If the top-up is already `paid` it answers `paid` and writes nothing.  If
it is `pending` and has a payment hash, the rail is polled
(`alby.getInvoice`): observing `settled` flips the status to `paid` and
credits the session with the top-up amount (a write of
`session.balanceSats + topup.amountSats`); an unsettled report or a
thrown `getInvoice` (caught and logged) leaves everything unchanged and
answers the stored status. -/

/-- What one poll of the payment rail yielded. -/
inductive RailObs where
  | settled
  | unsettled
  | railError
  deriving DecidableEq

/-- Top-up status and session balance as one sequentially-checked state. -/
structure TopupState where
  status : String
  balance : ℤ
  deriving DecidableEq

/-- The JSON answer of a status check: the reported status and, exactly
when this check performed the credit, the `newBalance` field. -/
structure TopupReply where
  status : String
  newBalance : Option ℤ
  deriving DecidableEq

/-- Embedding of one execution of the top-up status handler (after
authentication and the ownership check). -/
def topupCheck (amount : ℤ) (hasPaymentHash : Bool) (obs : RailObs)
    (st : TopupState) : TopupState × TopupReply :=
  if st.status = "paid" then (st, { status := "paid", newBalance := none })
  else if st.status = "pending" ∧ hasPaymentHash then
    match obs with
    | RailObs.settled =>
        ({ status := "paid", balance := st.balance + amount },
         { status := "paid", newBalance := some (st.balance + amount) })
    | _ => (st, { status := st.status, newBalance := none })
  else (st, { status := st.status, newBalance := none })

/-- Iterate status checks, one per rail observation. -/
def runChecks (amount : ℤ) (hasPaymentHash : Bool) :
    List RailObs → TopupState → TopupState
  | [], st => st
  | o :: os, st =>
      runChecks amount hasPaymentHash os (topupCheck amount hasPaymentHash o st).1

/-! ### Helper lemmas -/

theorem sessionBalance_update_self (rows : List SessionRow) (sid : String) (v : ℤ)
    (h : (rows.find? fun s => s.id = sid).isSome = true) :
    (((rows.map fun s => if s.id = sid then { s with balanceSats := v } else s).find?
        fun s => s.id = sid).map fun s => s.balanceSats) = some v := by
  induction rows with
  | nil => simp [List.find?] at h
  | cons r rs ih =>
      by_cases hid : r.id = sid
      · simp only [List.map_cons, if_pos hid]
        rw [List.find?_cons_of_pos _ (by simpa using hid)]
        simp
      · simp only [List.map_cons, if_neg hid]
        rw [List.find?_cons_of_neg _ (by simpa using hid)]
        rw [List.find?_cons_of_neg _ (by simpa using hid)] at h
        exact ih h

theorem developerBalance_update_self (rows : List DeveloperRow) (did : String) (v : ℤ)
    (h : (rows.find? fun d => d.id = did).isSome = true) :
    (((rows.map fun d => if d.id = did then { d with balanceSats := v } else d).find?
        fun d => d.id = did).map fun d => d.balanceSats) = some v := by
  induction rows with
  | nil => simp [List.find?] at h
  | cons r rs ih =>
      by_cases hid : r.id = did
      · simp only [List.map_cons, if_pos hid]
        rw [List.find?_cons_of_pos _ (by simpa using hid)]
        simp
      · simp only [List.map_cons, if_neg hid]
        rw [List.find?_cons_of_neg _ (by simpa using hid)]
        rw [List.find?_cons_of_neg _ (by simpa using hid)] at h
        exact ih h

/-! ### Claims -/

/-- C1: If the upstream fetch in the Forward step fails (the `fetch`
throws), the proxy returns the 502 `PROXY_ERROR` response and no
settlement occurs: the ledger returned is exactly the ledger passed in —
no session balance is debited, no developer balance is credited, and no
request-log row is appended. -/
theorem forwardRequest_fetchError_no_settlement (e : String) (gateway : GatewayRow)
    (path : String) (session : Option SessionRow) (costSats : ℤ) (method : String)
    (feePercent : ℚ) (l : Ledger) :
    forwardRequest (Except.error e) gateway path session costSats method feePercent l
      = (ProxyResponse.errorJson 502 "PROXY_ERROR", l) := rfl

/-- C7: Voucher verification is independent of the request path: for the
same token, gateway id, secret, clock and crypto primitives,
`verifyL402Token` returns the same result for any two request paths — the
request path is never compared to anything in the voucher. -/
theorem verifyL402Token_path_independent (hmac : String → MacaroonContent → String)
    (sha256hex : String → String) (now : ℤ) (decoded : Option MacaroonData)
    (preimage gatewayId secret p1 p2 : String) :
    verifyL402Token hmac sha256hex now decoded preimage gatewayId p1 secret
      = verifyL402Token hmac sha256hex now decoded preimage gatewayId p2 secret := rfl

/-- C10: A resolved price of exactly 0 authorizes immediately — whatever
the L402 header and session-key situation, the handler forwards with no
session attached — and a forward without a session performs no ledger
write of any kind whatever the fetch outcome; on upstream success the
response is the upstream status with `X-Request-Cost: 0` and no
`X-Balance-Remaining` header. -/
theorem priceZero_forwards_without_session_or_ledger_write (l402Check : Option Bool)
    (sessionKey : Option String) (l l2 : Ledger) (gateway : GatewayRow)
    (path method : String) (feePercent : ℚ)
    (fetchResult : Except String UpstreamResponse) (r : UpstreamResponse) :
    authorize l402Check sessionKey 0 l = AuthOutcome.forwardNoSession
    ∧ (forwardRequest fetchResult gateway path none 0 method feePercent l2).2 = l2
    ∧ forwardRequest (Except.ok r) gateway path none 0 method feePercent l2
        = (ProxyResponse.upstream r.status r.body 0 none, l2) := by
  refine ⟨?_, ?_, rfl⟩
  · by_cases h : l402Check = some true <;> simp [authorize, h]
  · cases fetchResult <;> rfl

/-- C3 (failing-input evaluation): two concurrent proxy requests against
one session with balance 10 and price 10, scheduled so that both session
lookups happen before either settlement write, BOTH pass the balance
check and BOTH settle: the final state has two settled requests, the
developer credited twice (2 × 9 = 18 at the default 2% fee), two
request-log rows, and balance 0 — where the claim requires exactly one
success and `PAYMENT_REQUIRED` for the rest. -/
theorem concurrent_requests_both_settle :
    (calculateFees 10 2).devEarnings = 9
    ∧ runSched 10 9 ⟨10, 0, 0, [ReqPhase.start, ReqPhase.start]⟩ [0, 1, 0, 1]
        = ⟨0, 18, 2, [ReqPhase.done true, ReqPhase.done true]⟩
    ∧ settledCount (runSched 10 9 ⟨10, 0, 0, [ReqPhase.start, ReqPhase.start]⟩ [0, 1, 0, 1])
        = 2 := by
  refine ⟨?_, by decide, by decide⟩
  show (10 : ℤ) - ⌈((10 : ℚ) * 2) / 100⌉ = 9
  rw [show (⌈((10 : ℚ) * 2) / 100⌉ : ℤ) = 1 from by rw [Int.ceil_eq_iff] ; norm_num]
  norm_num

/-- C2: For every cost ≥ 0 and fee percent in `[0, 100]`, the fee
calculator returns `totalCost = cost`,
`platformFee = ceil(cost * feePercent / 100)`,
`devEarnings = cost - platformFee`, and the two shares always sum back to
the total; at cost 0 both shares are 0, and at cost 1 the developer share
is 0 or 1 (it may be 0). -/
theorem calculateFees_spec (cost : ℤ) (fee : ℚ) (hc : 0 ≤ cost) (h0 : 0 ≤ fee)
    (h1 : fee ≤ 100) :
    (calculateFees cost fee).totalCost = cost
    ∧ (calculateFees cost fee).platformFee = ⌈((cost : ℚ) * fee) / 100⌉
    ∧ (calculateFees cost fee).devEarnings = cost - ⌈((cost : ℚ) * fee) / 100⌉
    ∧ (calculateFees cost fee).devEarnings + (calculateFees cost fee).platformFee
        = (calculateFees cost fee).totalCost
    ∧ (calculateFees 0 fee).devEarnings = 0
    ∧ (calculateFees 0 fee).platformFee = 0
    ∧ ((calculateFees 1 fee).devEarnings = 0 ∨ (calculateFees 1 fee).devEarnings = 1) := by
  refine ⟨rfl, rfl, rfl, by simp [calculateFees], ?_, ?_, ?_⟩
  · simp [calculateFees]
  · simp [calculateFees]
  · have hnn : (0 : ℤ) ≤ ⌈((1 : ℤ) : ℚ) * fee / 100⌉ := by
      apply Int.ceil_nonneg
      positivity
    have hle : ⌈((1 : ℤ) : ℚ) * fee / 100⌉ ≤ 1 := by
      rw [Int.ceil_le]
      rw [div_le_iff₀ (by norm_num : (0 : ℚ) < 100)]
      push_cast
      linarith
    simp only [calculateFees]
    omega

/-- Witness for C2 at the spec's own example, cost = 10 and fee = 5%:
the shares sum to the total and the platform share is 1 (the 0.5 rounds
up), so the developer share is 9. -/
theorem calculateFees_spec_witness :
    ((calculateFees 10 5).devEarnings + (calculateFees 10 5).platformFee
        = (calculateFees 10 5).totalCost)
    ∧ (calculateFees 10 5).platformFee = 1
    ∧ (calculateFees 10 5).devEarnings = 9 := by
  refine ⟨(calculateFees_spec 10 5 (by norm_num) (by norm_num) (by norm_num)).2.2.2.1, ?_, ?_⟩
  · show (⌈((10 : ℚ) * 5) / 100⌉ : ℤ) = 1
    rw [Int.ceil_eq_iff] ; norm_num
  · show (10 : ℤ) - ⌈((10 : ℚ) * 5) / 100⌉ = 9
    rw [show (⌈((10 : ℚ) * 5) / 100⌉ : ℤ) = 1 from by rw [Int.ceil_eq_iff] ; norm_num]
    norm_num

theorem findRuleLoop_eq_none (rs : List RouteRule) (path : String)
    (h : ∀ r ∈ rs, matchPath r.pattern path = false) : findRuleLoop rs path = none := by
  induction rs with
  | nil => rfl
  | cons r rest ih =>
      simp only [findRuleLoop]
      rw [if_neg (by simp [h r (List.mem_cons_self r rest)])]
      exact ih fun x hx => h x (List.mem_cons_of_mem r hx)

theorem findRuleLoop_first (rs : List RouteRule) (path : String) (i : Fin rs.length)
    (hi : matchPath (rs.get i).pattern path = true)
    (hj : ∀ j : Fin rs.length, (j : ℕ) < (i : ℕ) → matchPath (rs.get j).pattern path = false) :
    findRuleLoop rs path = some (rs.get i) := by
  induction rs with
  | nil => exact absurd i.isLt (by simp)
  | cons r rest ih =>
      cases i using Fin.cases with
      | zero =>
          simp only [findRuleLoop]
          rw [if_pos (by simpa using hi)]
          rfl
      | succ j =>
          have hr : matchPath r.pattern path = false := by
            simpa using hj ⟨0, by simp⟩ (by simp)
          simp only [findRuleLoop]
          rw [if_neg (by simp [hr])]
          exact ih j (by simpa using hi)
            fun j2 hj2 => by simpa using hj j2.succ (by simpa using hj2)

/-- C4: The route pricer returns the price of the first rule in declared
order whose pattern fully matches the path — never a later matching
rule's price — and falls back to the gateway default price when the rule
list is absent (`null`), empty, or has no matching rule. -/
theorem findMatchingRule_first_match (path : String) (d : ℤ) (rs : List RouteRule) :
    findMatchingRule none path d = (d, none)
    ∧ findMatchingRule (some []) path d = (d, none)
    ∧ ((∀ r ∈ rs, matchPath r.pattern path = false) →
        findMatchingRule (some rs) path d = (d, none))
    ∧ (∀ i : Fin rs.length, matchPath (rs.get i).pattern path = true →
        (∀ j : Fin rs.length, (j : ℕ) < (i : ℕ) →
          matchPath (rs.get j).pattern path = false) →
        findMatchingRule (some rs) path d = ((rs.get i).price, some (rs.get i))) := by
  refine ⟨rfl, rfl, ?_, ?_⟩
  · intro h
    cases rs with
    | nil => rfl
    | cons r rest => simp [findMatchingRule, findRuleLoop_eq_none _ _ h]
  · intro i hi hj
    have hloop := findRuleLoop_first rs path i hi hj
    cases rs with
    | nil => exact absurd i.isLt (by simp)
    | cons r rest => simp [findMatchingRule, hloop]

/-- Witness for C4 at the spec's example: with rules
`[("/free/*", 0), ("/**", 5)]` and default 10, the path `/free/x` gets
price 0 from the first rule (even though the later `/**` rule also
matches). -/
theorem findMatchingRule_first_match_witness :
    findMatchingRule (some [⟨"/free/*", 0⟩, ⟨"/**", 5⟩]) "/free/x" 10
      = (0, some ⟨"/free/*", 0⟩) :=
  (findMatchingRule_first_match "/free/x" 10 [⟨"/free/*", 0⟩, ⟨"/**", 5⟩]).2.2.2
    ⟨0, by decide⟩ (by decide) (by decide)

theorem mem_nonSlashSuffixes (s b : List Char) :
    b ∈ nonSlashSuffixes s ↔ ∃ a, s = a ++ b ∧ ∀ c ∈ a, c ≠ '/' := by
  induction s with
  | nil =>
      simp only [nonSlashSuffixes, List.mem_singleton]
      constructor
      · rintro rfl
        exact ⟨[], rfl, by simp⟩
      · rintro ⟨a, ha, -⟩
        rcases List.append_eq_nil.mp ha.symm with ⟨-, rfl⟩
        rfl
  | cons d ds ih =>
      by_cases hd : d = '/'
      · simp only [nonSlashSuffixes, if_pos hd, List.mem_singleton]
        constructor
        · rintro rfl
          exact ⟨[], rfl, by simp⟩
        · rintro ⟨a, ha, hns⟩
          cases a with
          | nil => simpa using ha.symm
          | cons c a2 =>
              exfalso
              apply hns c (List.mem_cons_self c a2)
              have : c = d := by simpa using (congrArg (fun t => t.head?) ha).symm
              rw [this, hd]
      · simp only [nonSlashSuffixes, if_neg hd, List.mem_cons]
        constructor
        · rintro (rfl | hb)
          · exact ⟨[], rfl, by simp⟩
          · obtain ⟨a, rfl, hns⟩ := ih.mp hb
            refine ⟨d :: a, rfl, ?_⟩
            intro c hc
            rcases List.mem_cons.mp hc with rfl | hc2
            · exact hd
            · exact hns c hc2
        · rintro ⟨a, ha, hns⟩
          cases a with
          | nil =>
              left
              simpa using ha.symm
          | cons c a2 =>
              right
              have hcd : c = d := by simpa using (congrArg (fun t => t.head?) ha).symm
              have hds : ds = a2 ++ b := by simpa using congrArg (fun t => t.tail) ha
              exact ih.mpr ⟨a2, hds, fun x hx => hns x (List.mem_cons_of_mem c hx)⟩

theorem mem_allSuffixes (s b : List Char) :
    b ∈ allSuffixes s ↔ ∃ a, s = a ++ b := by
  induction s with
  | nil =>
      simp only [allSuffixes, List.mem_singleton]
      constructor
      · rintro rfl
        exact ⟨[], rfl⟩
      · rintro ⟨a, ha⟩
        rcases List.append_eq_nil.mp ha.symm with ⟨-, rfl⟩
        rfl
  | cons d ds ih =>
      simp only [allSuffixes, List.mem_cons]
      constructor
      · rintro (rfl | hb)
        · exact ⟨[], rfl⟩
        · obtain ⟨a, rfl⟩ := ih.mp hb
          exact ⟨d :: a, rfl⟩
      · rintro ⟨a, ha⟩
        cases a with
        | nil =>
            left
            simpa using ha.symm
        | cons c a2 =>
            right
            have hds : ds = a2 ++ b := by simpa using congrArg (fun t => t.tail) ha
            exact ih.mpr ⟨a2, hds⟩

/-- C5: Glob semantics of the compiled route patterns.  A `*` token
consumes exactly one (possibly empty) path segment's worth of characters
and can never consume a `/`; a `**` token consumes any run of characters
(zero or more whole segments); and the empty token list accepts only the
exhausted path, so a pattern matches only against the entire request path
(the compiled regex is anchored at both ends). -/
theorem matchTokens_glob_semantics (ts : List GlobTok) (s : List Char)
    (pattern path : String) :
    (matchTokens [] s = true ↔ s = [])
    ∧ (matchTokens (GlobTok.star :: ts) s = true ↔
        ∃ a b, s = a ++ b ∧ (∀ c ∈ a, c ≠ '/') ∧ matchTokens ts b = true)
    ∧ (matchTokens (GlobTok.globstar :: ts) s = true ↔
        ∃ a b, s = a ++ b ∧ matchTokens ts b = true)
    ∧ matchPath pattern path = matchTokens (globTokens pattern.toList) path.toList := by
  refine ⟨by simp [matchTokens], ?_, ?_, rfl⟩
  · simp only [matchTokens, List.any_eq_true]
    constructor
    · rintro ⟨b, hb, hm⟩
      obtain ⟨a, rfl, hns⟩ := (mem_nonSlashSuffixes s b).mp hb
      exact ⟨a, b, rfl, hns, hm⟩
    · rintro ⟨a, b, rfl, hns, hm⟩
      exact ⟨b, (mem_nonSlashSuffixes _ b).mpr ⟨a, rfl, hns⟩, hm⟩
  · simp only [matchTokens, List.any_eq_true]
    constructor
    · rintro ⟨b, hb, hm⟩
      obtain ⟨a, rfl⟩ := (mem_allSuffixes s b).mp hb
      exact ⟨a, b, rfl, hm⟩
    · rintro ⟨a, b, rfl, hm⟩
      exact ⟨b, (mem_allSuffixes _ b).mpr ⟨a, rfl⟩, hm⟩

/-- Witness for C5: a single `*` accepts the one-segment path `ab`
(taking `a ++ b = ['a','b'] ++ []`, a slash-free run), per the star
characterization of `matchTokens_glob_semantics`. -/
theorem matchTokens_glob_semantics_witness :
    matchTokens [GlobTok.star] (String.toList "ab") = true :=
  (matchTokens_glob_semantics [] (String.toList "ab") "" "").2.1.mpr
    ⟨String.toList "ab", [], by decide, by decide, by decide⟩

/-- C6: Voucher verification accepts a token exactly when it decodes, the
recomputed HMAC over all fields except the signature equals the embedded
signature, the clock is not past the embedded expiry, the voucher's
gateway id equals the gateway being called, and the SHA-256 of the
presented preimage equals the voucher's payment hash; each failing case
returns its tagged error in this order of precedence, and in particular a
voucher for another gateway is rejected even with a correct signature and
fresh expiry, and an expired voucher is never accepted regardless of its
signature. -/
theorem verifyL402Token_checks (hmac : String → MacaroonContent → String)
    (sha256hex : String → String) (now : ℤ) (decoded : Option MacaroonData)
    (preimage gatewayId pathArg secret : String) :
    (verifyL402Token hmac sha256hex now decoded preimage gatewayId pathArg secret
        = VerifyResult.valid ↔
      ∃ m, decoded = some m ∧ m.signature = hmac secret m.content ∧ now ≤ m.expires
        ∧ m.gatewayId = gatewayId ∧ sha256hex preimage = m.paymentHash)
    ∧ (decoded = none →
        verifyL402Token hmac sha256hex now decoded preimage gatewayId pathArg secret
          = VerifyResult.invalid "Invalid macaroon format")
    ∧ (∀ m, decoded = some m → m.signature ≠ hmac secret m.content →
        verifyL402Token hmac sha256hex now decoded preimage gatewayId pathArg secret
          = VerifyResult.invalid "Invalid macaroon signature")
    ∧ (∀ m, decoded = some m → m.signature = hmac secret m.content → now > m.expires →
        verifyL402Token hmac sha256hex now decoded preimage gatewayId pathArg secret
          = VerifyResult.invalid "Macaroon expired")
    ∧ (∀ m, decoded = some m → m.signature = hmac secret m.content → now ≤ m.expires →
        m.gatewayId ≠ gatewayId →
        verifyL402Token hmac sha256hex now decoded preimage gatewayId pathArg secret
          = VerifyResult.invalid "Macaroon not valid for this gateway")
    ∧ (∀ m, decoded = some m → m.signature = hmac secret m.content → now ≤ m.expires →
        m.gatewayId = gatewayId → sha256hex preimage ≠ m.paymentHash →
        verifyL402Token hmac sha256hex now decoded preimage gatewayId pathArg secret
          = VerifyResult.invalid "Invalid preimage")
    ∧ (∀ m, decoded = some m → now > m.expires →
        verifyL402Token hmac sha256hex now decoded preimage gatewayId pathArg secret
          ≠ VerifyResult.valid)
    ∧ (∀ m, decoded = some m → m.gatewayId ≠ gatewayId →
        verifyL402Token hmac sha256hex now decoded preimage gatewayId pathArg secret
          ≠ VerifyResult.valid) := by
  cases decoded with
  | none => simp [verifyL402Token]
  | some m =>
      by_cases hsig : m.signature = hmac secret m.content <;>
        by_cases hexp : now > m.expires <;>
          by_cases hgw : m.gatewayId = gatewayId <;>
            by_cases hpre : sha256hex preimage = m.paymentHash <;>
              simp [verifyL402Token, verifyMacaroonSignature, hsig, hexp, hgw, hpre,
                le_of_not_lt, not_le]

/-- Witness for C6: a voucher whose signature verifies (the HMAC
primitive is instantiated as a constant function) and whose expiry is
fresh, but which was minted for gateway `A`, is rejected against gateway
`B` with the tagged wrong-gateway error. -/
theorem verifyL402Token_checks_witness :
    verifyL402Token (fun _ _ => "sig") (fun _ => "h") 0
        (some ⟨"h", "A", "/p", 1, 10, "sig"⟩) "p" "B" "/x" "secret"
      = VerifyResult.invalid "Macaroon not valid for this gateway" :=
  (verifyL402Token_checks (fun _ _ => "sig") (fun _ => "h") 0
      (some ⟨"h", "A", "/p", 1, 10, "sig"⟩) "p" "B" "/x" "secret").2.2.2.2.1
    ⟨"h", "A", "/p", 1, 10, "sig"⟩ rfl rfl (by decide) (by decide)

/-- Developer earnings of a 10-sat charge at the default 2% platform fee:
the fee rounds `0.2` up to 1, leaving 9. -/
theorem devEarnings_ten_at_two_percent : (calculateFees 10 2).devEarnings = 9 := by
  show (10 : ℤ) - ⌈((10 : ℚ) * 2) / 100⌉ = 9
  rw [show (⌈((10 : ℚ) * 2) / 100⌉ : ℤ) = 1 from by rw [Int.ceil_eq_iff] ; norm_num]
  norm_num

/-- C8: Settlement's debit/credit pair is applied as a unit.  In every
settlement (successful upstream round trip, session attached, positive
price), given that the gateway's developer row exists (guaranteed by the
schema's non-null foreign key `gateways.developer_id → developers.id`)
and the session row carries the snapshot balance, the session is debited
by the resolved price, the developer is credited by exactly the fee
split's developer earnings, and the request-log row is appended — never
one ledger write without the other. -/
theorem settlement_debit_iff_credit (r : UpstreamResponse) (gw : GatewayRow)
    (path method : String) (s : SessionRow) (cost : ℤ) (fee : ℚ) (l : Ledger)
    (dev : DeveloperRow) (hcost : 0 < cost)
    (hdev : findDeveloper l gw.developerId = some dev)
    (hsess : sessionBalance l s.id = some s.balanceSats) :
    sessionBalance (forwardRequest (Except.ok r) gw path (some s) cost method fee l).2 s.id
        = some (s.balanceSats - cost)
    ∧ developerBalance (forwardRequest (Except.ok r) gw path (some s) cost method fee l).2
        dev.id = some (dev.balanceSats + (calculateFees cost fee).devEarnings)
    ∧ (forwardRequest (Except.ok r) gw path (some s) cost method fee l).2.requests
        = l.requests
          ++ [{ gatewayId := gw.id, sessionId := s.id, costSats := cost,
                devEarningsSats := (calculateFees cost fee).devEarnings,
                platformFeeSats := (calculateFees cost fee).platformFee,
                method := method, path := path, statusCode := r.status }] := by
  have hid : dev.id = gw.developerId := by simpa using List.find?_some hdev
  have hsome : (l.sessions.find? fun x => x.id = s.id).isSome = true := by
    have h := congrArg Option.isSome hsess
    simpa [sessionBalance] using h
  have hdevsome : (l.developers.find? fun d => d.id = dev.id).isSome = true := by
    rw [hid]
    have h := congrArg Option.isSome hdev
    simpa [findDeveloper] using h
  have h2 : (forwardRequest (Except.ok r) gw path (some s) cost method fee l).2
      = appendRequest
          (updateDeveloperBalance (updateSessionBalance l s.id (s.balanceSats - cost))
            dev.id (dev.balanceSats + (calculateFees cost fee).devEarnings))
          { gatewayId := gw.id, sessionId := s.id, costSats := cost,
            devEarningsSats := (calculateFees cost fee).devEarnings,
            platformFeeSats := (calculateFees cost fee).platformFee,
            method := method, path := path, statusCode := r.status } := by
    simp only [forwardRequest, if_pos hcost]
    rw [show findDeveloper (updateSessionBalance l s.id (s.balanceSats - cost))
        gw.developerId = some dev from hdev]
    rfl
  rw [h2]
  refine ⟨?_, ?_, rfl⟩
  · show (((l.sessions.map fun x =>
        if x.id = s.id then { x with balanceSats := s.balanceSats - cost } else x).find?
        fun x => x.id = s.id).map fun x => x.balanceSats) = some (s.balanceSats - cost)
    exact sessionBalance_update_self l.sessions s.id (s.balanceSats - cost) hsome
  · have hrw : (updateSessionBalance l s.id (s.balanceSats - cost)).developers
        = l.developers := rfl
    show (((l.developers.map fun d =>
        if d.id = dev.id then
          { d with balanceSats := dev.balanceSats + (calculateFees cost fee).devEarnings }
        else d).find? fun d => d.id = dev.id).map fun d => d.balanceSats)
      = some (dev.balanceSats + (calculateFees cost fee).devEarnings)
    exact developerBalance_update_self l.developers dev.id
      (dev.balanceSats + (calculateFees cost fee).devEarnings) hdevsome

/-- A one-gateway, one-session, one-developer ledger used by the C8
witness. -/
def demoLedger : Ledger :=
  { sessions := [{ id := "s1", sessionKey := "sk_demo", balanceSats := 25 }]
    developers := [{ id := "d1", balanceSats := 0 }]
    requests := [] }

/-- The gateway of the C8 witness: owned by developer `d1`, price 10. -/
def demoGateway : GatewayRow :=
  { id := "g1", developerId := "d1", targetUrl := "http://upstream",
    pricePerRequestSats := 10, isActive := true, rules := none }

/-- Witness for C8: on the demo ledger, settling a 10-sat call at the
default 2% fee debits the session from 25 to 15 and credits the
developer from 0 to 9 in the same settlement. -/
theorem settlement_debit_iff_credit_witness :
    sessionBalance (forwardRequest (Except.ok ⟨200, "ok"⟩) demoGateway "/x"
        (some { id := "s1", sessionKey := "sk_demo", balanceSats := 25 }) 10 "GET" 2
        demoLedger).2 "s1" = some 15
    ∧ developerBalance (forwardRequest (Except.ok ⟨200, "ok"⟩) demoGateway "/x"
        (some { id := "s1", sessionKey := "sk_demo", balanceSats := 25 }) 10 "GET" 2
        demoLedger).2 "d1" = some 9 := by
  obtain ⟨h1, h2, -⟩ := settlement_debit_iff_credit ⟨200, "ok"⟩ demoGateway "/x" "GET"
    { id := "s1", sessionKey := "sk_demo", balanceSats := 25 } 10 2 demoLedger
    ⟨"d1", 0⟩ (by norm_num) (by decide) (by decide)
  constructor
  · rw [h1]
    norm_num
  · rw [h2, devEarnings_ten_at_two_percent]
    norm_num

theorem runChecks_paid (amount : ℤ) (hasPH : Bool) (os : List RailObs) (st : TopupState)
    (h : st.status = "paid") : runChecks amount hasPH os st = st := by
  induction os with
  | nil => rfl
  | cons o os2 ih =>
      have hstep : topupCheck amount hasPH o st
          = (st, { status := "paid", newBalance := none }) := by
        simp [topupCheck, h]
      simp [runChecks, hstep, ih]

/-- C9: A top-up transitions from pending to paid exactly once and
credits the session by exactly its amount exactly once, on the status
check that first observes the rail report the invoice settled: across
any sequence of status checks starting from `pending`, the final state is
`paid` with the balance credited once iff some check observed `settled`
(no matter how many did), and once `paid` every further check returns
`paid` and changes nothing — in particular it never credits again. -/
theorem topup_credits_exactly_once (amount : ℤ) (hasPH : Bool) (obs : RailObs)
    (os : List RailObs) (st : TopupState) (b : ℤ) :
    (st.status = "paid" → runChecks amount hasPH os st = st)
    ∧ (st.status = "paid" →
        topupCheck amount hasPH obs st = (st, { status := "paid", newBalance := none }))
    ∧ topupCheck amount true RailObs.settled { status := "pending", balance := b }
        = ({ status := "paid", balance := b + amount },
           { status := "paid", newBalance := some (b + amount) })
    ∧ runChecks amount true os { status := "pending", balance := b }
        = if RailObs.settled ∈ os then { status := "paid", balance := b + amount }
          else { status := "pending", balance := b } := by
  refine ⟨runChecks_paid amount hasPH os st, ?_, ?_, ?_⟩
  · intro h
    simp [topupCheck, h]
  · simp [topupCheck]
  · induction os with
    | nil => simp [runChecks]
    | cons o os2 ih =>
        cases o with
        | settled =>
            have hstep : (topupCheck amount true RailObs.settled
                { status := "pending", balance := b }).1
                = { status := "paid", balance := b + amount } := by
              simp [topupCheck]
            simp only [runChecks, hstep]
            rw [runChecks_paid amount true os2 _ rfl]
            simp
        | unsettled =>
            have hstep : (topupCheck amount true RailObs.unsettled
                { status := "pending", balance := b }).1
                = { status := "pending", balance := b } := by
              simp [topupCheck]
            simp only [runChecks, hstep]
            rw [ih]
            simp [List.mem_cons]
        | railError =>
            have hstep : (topupCheck amount true RailObs.railError
                { status := "pending", balance := b }).1
                = { status := "pending", balance := b } := by
              simp [topupCheck]
            simp only [runChecks, hstep]
            rw [ih]
            simp [List.mem_cons]

/-- Witness for C9: a pending 5-sat top-up polled three times (rail not
yet settled, then settled twice) ends `paid` with the balance credited
exactly once, 7 → 12. -/
theorem topup_credits_exactly_once_witness :
    runChecks 5 true [RailObs.unsettled, RailObs.settled, RailObs.settled]
        { status := "pending", balance := 7 } = { status := "paid", balance := 12 } := by
  have h := (topup_credits_exactly_once 5 true RailObs.settled
      [RailObs.unsettled, RailObs.settled, RailObs.settled]
      { status := "pending", balance := 7 } 7).2.2.2
  rw [h]
  decide

end Moria
